import Mathlib

/-!
Shallow embedding of the SoFifa web-scraper core (`fifascraper/__init__.py`)
and verification of its specification claims.

Python exceptions are modelled by an explicit error type, fallible code by
`Except`, HTML documents by explicit structures (a cell keeps the attributes
and text the code reads), and the two regular expressions of the module by
executable matching functions over `List Char`.
-/

/-- The Python exception classes the module can raise or catch. -/
inductive PyErr : Type
  | valueError (msg : String)
  | typeError
  | attributeError
  | indexError
  | assertionError
  | keyError
deriving DecidableEq, Repr

instance {ε α : Type} [DecidableEq ε] [DecidableEq α] : DecidableEq (Except ε α) := fun a b =>
  match a, b with
  | .ok x, .ok y =>
      if h : x = y then isTrue (by rw [h]) else isFalse (fun hc => by cases hc; exact h rfl)
  | .error e, .error f =>
      if h : e = f then isTrue (by rw [h]) else isFalse (fun hc => by cases hc; exact h rfl)
  | .ok _, .error _ => isFalse (fun hc => Except.noConfusion hc)
  | .error _, .ok _ => isFalse (fun hc => Except.noConfusion hc)

/-- Python `str.strip()`: remove whitespace from both ends. -/
def pyStrip (s : String) : String :=
  String.mk (((s.toList.dropWhile Char.isWhitespace).reverse.dropWhile Char.isWhitespace).reverse)

/-- Python `str.lower()`: lower-case character by character. -/
def pyLower (s : String) : String := String.mk (s.data.map Char.toLower)

/-- One step of Python `dict` construction from a pair sequence: a later pair
with an existing key overwrites that key's value in place, a fresh key is
appended (insertion order is preserved). -/
def dictInsert {β : Type} (d : List (String × β)) (k : String) (v : β) : List (String × β) :=
  if d.any (fun kv => kv.1 = k) then d.map (fun kv => if kv.1 = k then (k, v) else kv)
  else d ++ [(k, v)]

/-- Python `dict(pairs)`: left-to-right insertion, last value wins per key. -/
def pyDict {β : Type} (l : List (String × β)) : List (String × β) :=
  l.foldl (fun d kv => dictInsert d kv.1 kv.2) []

/-- Left-to-right effectful map over `Except`, mirroring how `dict(generator)`
consumes a Python generator: the first raised exception propagates. -/
def mapExcept {α β : Type} (f : α → Except PyErr β) : List α → Except PyErr (List β)
  | [] => .ok []
  | x :: xs =>
    match f x with
    | .error e => .error e
    | .ok y =>
      match mapExcept f xs with
      | .error e => .error e
      | .ok ys => .ok (y :: ys)

theorem dictInsert_forall {β : Type} (P : String × β → Prop) (d : List (String × β))
    (k : String) (v : β) (hd : ∀ x ∈ d, P x) (hkv : P (k, v)) :
    ∀ x ∈ dictInsert d k v, P x := by
  intro x hx
  unfold dictInsert at hx
  split at hx
  · rcases List.mem_map.mp hx with ⟨kv, hkvmem, hxeq⟩
    by_cases hk : kv.1 = k
    · rw [if_pos hk] at hxeq
      exact hxeq ▸ hkv
    · rw [if_neg hk] at hxeq
      exact hxeq ▸ hd kv hkvmem
  · rcases List.mem_append.mp hx with hmem | hmem
    · exact hd x hmem
    · simpa using (List.mem_singleton.mp hmem) ▸ hkv

theorem pyDict_foldl_forall {β : Type} (P : String × β → Prop) :
    ∀ (l d : List (String × β)), (∀ x ∈ d, P x) → (∀ x ∈ l, P x) →
      ∀ x ∈ l.foldl (fun d kv => dictInsert d kv.1 kv.2) d, P x := by
  intro l
  induction l with
  | nil => intro d hd _ x hx; exact hd x hx
  | cons kv rest ih =>
    intro d hd hl x hx
    refine ih (dictInsert d kv.1 kv.2)
      (dictInsert_forall P d kv.1 kv.2 hd ?_) (fun y hy => hl y (List.mem_cons_of_mem kv hy)) x hx
    exact hl kv (List.mem_cons_self kv rest)

/-- Every entry of the built dict is one of the supplied pairs. -/
theorem pyDict_forall {β : Type} (P : String × β → Prop) (l : List (String × β))
    (hl : ∀ x ∈ l, P x) : ∀ x ∈ pyDict l, P x :=
  pyDict_foldl_forall P l [] (by intro x hx; cases hx) hl

theorem mapExcept_mem {α β : Type} (f : α → Except PyErr β) :
    ∀ (l : List α) (res : List β), mapExcept f l = .ok res →
      ∀ y ∈ res, ∃ x ∈ l, f x = .ok y := by
  intro l
  induction l with
  | nil =>
    intro res h y hy
    cases h; cases hy
  | cons a as ih =>
    intro res h y hy
    unfold mapExcept at h
    cases hfa : f a with
    | error e => rw [hfa] at h; cases h
    | ok b =>
      rw [hfa] at h
      cases hrest : mapExcept f as with
      | error e => rw [hrest] at h; cases h
      | ok bs =>
        rw [hrest] at h
        cases h
        rcases List.mem_cons.mp hy with hyb | hybs
        · exact ⟨a, List.mem_cons_self a as, hyb ▸ hfa⟩
        · rcases ih bs hrest y hybs with ⟨x, hxmem, hfx⟩
          exact ⟨x, List.mem_cons_of_mem a hxmem, hfx⟩

theorem mapExcept_ok_of_all {α β : Type} (f : α → Except PyErr β) :
    ∀ l : List α, (∀ x ∈ l, ∃ y, f x = .ok y) → ∃ res, mapExcept f l = .ok res := by
  intro l
  induction l with
  | nil => exact fun _ => ⟨[], rfl⟩
  | cons a as ih =>
    intro h
    rcases h a (List.mem_cons_self a as) with ⟨b, hb⟩
    rcases ih (fun x hx => h x (List.mem_cons_of_mem a hx)) with ⟨bs, hbs⟩
    exact ⟨b :: bs, by unfold mapExcept; rw [hb, hbs]⟩

theorem mapExcept_eq_map {α β : Type} (f : α → Except PyErr β) (g : α → β)
    (hfg : ∀ (x : α) (y : β), f x = .ok y → y = g x) :
    ∀ (l : List α) (res : List β), mapExcept f l = .ok res → res = l.map g := by
  intro l
  induction l with
  | nil => intro res h; cases h; rfl
  | cons a as ih =>
    intro res h
    unfold mapExcept at h
    cases hfa : f a with
    | error e => rw [hfa] at h; cases h
    | ok b =>
      rw [hfa] at h
      cases hrest : mapExcept f as with
      | error e => rw [hrest] at h; cases h
      | ok bs =>
        rw [hrest] at h
        cases h
        rw [List.map_cons, hfg a b hfa, ih bs hrest]

/-! ## Module-level constants (`fifascraper/__init__.py`, top of file) -/

def BASE_URL : String := "https://sofifa.com"
def LEAGUE_NUMBER : String := "13"
def WEEK_NUMBER : String := "01"

/-- The fixed ordered field vocabulary `FIELDS` handed to the CSV writer. -/
def FIELDS : List String :=
  [ "season", "player", "team", "appearances", "lineups", "substitute in",
    "substitute out", "subs on bench", "injuries", "minutes played", "goals",
    "assists", "big chances created", "big chances missed", "shots", "on target",
    "shots blocked", "hit woodwork", "passes", "accurate passes", "key passes",
    "crosses", "crosses accurate", "long balls", "through balls",
    "passing accuracy", "dribbles attempts", "dribbles success", "dribbled past",
    "dribbles dispossessed", "duels", "duels won", "tackles", "interceptions",
    "blocks", "long balls won", "aerials won", "clearances", "fouls committed",
    "fouls drawn", "yellow cards", "2nd yellow card", "red cards", "offsides",
    "saves", "inside box saves", "penalty saved", "clean sheets", "conceded",
    "rating" ]

/-! ## Regular-expression models

The module uses three regexes: `/team/(\d+)/\S+/` (searched anywhere in an
href), `/player/(\d+)/\S+/(\d+)` (likewise), and `\d{4}/(\d{4})|\d{4}`
(matched at the start of a season label). They are modelled as executable
matchers over `List Char`. -/

def headDigit : List Char → Bool
  | [] => false
  | c :: _ => c.isDigit

/-- Matcher for a prefix of shape `\S*/`: some (possibly zero) non-whitespace
characters followed by a literal slash. -/
def tailSlash : List Char → Bool
  | [] => false
  | c :: rest => (c == '/') || (!c.isWhitespace && tailSlash rest)

/-- Matcher for a prefix of shape `\S+/`. -/
def slugSlash : List Char → Bool
  | [] => false
  | c :: rest => !c.isWhitespace && tailSlash rest

/-- Matcher for a prefix of shape `\S*/\d`: non-whitespace, a slash, a digit. -/
def tailSlashDigit : List Char → Bool
  | [] => false
  | c :: rest => ((c == '/') && headDigit rest) || (!c.isWhitespace && tailSlashDigit rest)

/-- Matcher for a prefix of shape `\S+/\d`. -/
def slugSlashDigit : List Char → Bool
  | [] => false
  | c :: rest => !c.isWhitespace && tailSlashDigit rest

/-- Attempt of `/team/(\d+)/\S+/` anchored at the head of the input,
returning the captured digit group. -/
def matchTeamAt (l : List Char) : Option (List Char) :=
  if l.take 6 = "/team/".toList then
    if (l.drop 6).takeWhile Char.isDigit ≠ [] ∧
        ((l.drop 6).dropWhile Char.isDigit).head? = some '/' ∧
        slugSlash ((l.drop 6).dropWhile Char.isDigit).tail
    then some ((l.drop 6).takeWhile Char.isDigit) else none
  else none

/-- `re.search` semantics: try the anchored match at every position, leftmost
success wins. -/
def searchTeam : List Char → Option (List Char)
  | [] => none
  | c :: rest =>
    match matchTeamAt (c :: rest) with
    | some ds => some ds
    | none => searchTeam rest

/-- `extract_team_from_href`: searches `/team/(\d+)/\S+/` in the href and
returns the digit group; with no match it raises `ValueError`. -/
def extract_team_from_href (href : String) : Except PyErr String :=
  match searchTeam href.toList with
  | some ds => .ok (String.mk ds)
  | none => .error (.valueError ("could not find the team identifier for tag: " ++ href))

/-- Attempt of `/player/(\d+)/\S+/(\d+)` anchored at the head of the input,
returning the first captured digit group (the only one the code uses). -/
def matchPlayerAt (l : List Char) : Option (List Char) :=
  if l.take 8 = "/player/".toList then
    if (l.drop 8).takeWhile Char.isDigit ≠ [] ∧
        ((l.drop 8).dropWhile Char.isDigit).head? = some '/' ∧
        slugSlashDigit ((l.drop 8).dropWhile Char.isDigit).tail
    then some ((l.drop 8).takeWhile Char.isDigit) else none
  else none

def searchPlayer : List Char → Option (List Char)
  | [] => none
  | c :: rest =>
    match matchPlayerAt (c :: rest) with
    | some ds => some ds
    | none => searchPlayer rest

/-- The player-identifier extraction step inside `Team._extract_player_mapping`:
`re.search(r"/player/(\d+)/\S+/(\d+)", player_url)` and `str(match.group(1))`;
with no match it raises `ValueError` (the Python message interpolates the tag,
here the href stands in for it). -/
def extract_player_from_href (href : String) : Except PyErr String :=
  match searchPlayer href.toList with
  | some ds => .ok (String.mk ds)
  | none => .error (.valueError ("Could not find the player identifier for tag: " ++ href))

/-- `re.match(r"\d{4}/(\d{4})|\d{4}", s)`: the first alternative needs four
digits, a slash and four further digits at the start of the label and captures
the second year; failing that, the second alternative needs four digits at the
start. Nothing anchors the end of the match. Returns the group the code then
slices (`group(1)` if it matched, else `group(0)`). -/
def matchSeason : List Char → Option (List Char)
  | a :: b :: c :: d :: rest =>
    if a.isDigit && b.isDigit && c.isDigit && d.isDigit then
      match rest with
      | '/' :: e :: f :: g :: h :: _ =>
        if e.isDigit && f.isDigit && g.isDigit && h.isDigit then some [e, f, g, h]
        else some [a, b, c, d]
      | _ => some [a, b, c, d]
    else none
  | _ => none

/-- `Player._extract_season` applied to the first cell's string: `re.match`
on `None` raises `TypeError`; with no match the code raises
`ValueError("Season Number not detected")`; otherwise it returns `season[2:]`
of the selected group. -/
def extract_season_label (raw : Option String) : Except PyErr String :=
  match raw with
  | none => .error .typeError
  | some s =>
    match matchSeason s.toList with
    | some g => .ok (String.mk (g.drop 2))
    | none => .error (.valueError "Season Number not detected")

/-! ## The rate-limit retry wrapper (`retry_from_header`) -/

/-- One observed outcome of calling the wrapped operation. The
`Retry-After` header is modelled as an optional number of seconds, the result
of the `float(e.headers.get("Retry-After"))` parse in the code. -/
inductive FetchOutcome (α : Type) : Type
  | success (v : α)
  | httpError (code : Nat) (retryAfter : Option ℚ)
  | otherError
deriving DecidableEq

/-- How a run of the retry loop ends. -/
inductive RunResult (α : Type) : Type
  | returns (v : α)
  | raisesHTTP (code : Nat) (retryAfter : Option ℚ)
  | raisesOther
  | pending
deriving DecidableEq

def DEFAULT_RETRY : ℚ := 15

/-- The `retry_from_header` decorator's loop, run against a finite trace of
outcomes of `func`: returns the list of `sleep` durations performed and the
final result (`pending` when the trace is exhausted while the loop would call
`func` once more). -/
def retry_from_header {α : Type} : List (FetchOutcome α) → List ℚ × RunResult α
  | [] => ([], .pending)
  | .success v :: _ => ([], .returns v)
  | .otherError :: _ => ([], .raisesOther)
  | .httpError code ra :: rest =>
    if code ≠ 429 then ([], .raisesHTTP code ra)
    else ((ra.getD DEFAULT_RETRY) :: (retry_from_header rest).1, (retry_from_header rest).2)

/-! ## Data model -/

/-- `Player.__init__` stores name and identifier. -/
structure Player : Type where
  name : String
  identifier : String
deriving DecidableEq, Repr

/-- `Team.__init__` stores name, identifier, season and week. -/
structure Team : Type where
  name : String
  identifier : String
  season : String
  week : String
deriving DecidableEq, Repr

/-- `SeasonRecord`: the explicit keyword fields of the `TypedDict` plus the
keyword arguments splatted in from the titled cells (a Python dict, kept here
as its key-value pairs in insertion order). -/
structure SeasonRecord : Type where
  season : String
  player : Player
  team : Team
  extras : List (String × String)
deriving DecidableEq, Repr

/-- A `<td>` cell of the career-page table, keeping exactly what the code
reads from it: the `title` attribute (`get("title")`), the `.string` content,
and the first `<a>` descendant together with its `href` attribute
(`anchorHref = none`: no anchor; `some none`: anchor without `href`;
`some (some h)`: anchor with `href` `h`). -/
structure Cell : Type where
  title : Option String
  text : Option String
  anchorHref : Option (Option String)
deriving DecidableEq, Repr

/-- A `<tr>` row: its `<td>` cells (`find_all("td")`). -/
structure Row : Type where
  cells : List Cell
deriving DecidableEq, Repr

/-- A fetched career page: `soup.find("table")` either finds no table
(`none`) or one whose `find_all("tr")` rows are given. -/
structure Page : Type where
  table : Option (List Row)
deriving DecidableEq, Repr

/-! ## `Player` extraction helpers -/

/-- `Player._has_title`: `column.has_attr("title") and column.string is not None`. -/
def has_title (c : Cell) : Bool :=
  c.title.isSome && c.text.isSome

/-- `Player._extract_data`: asserts the `title` attribute and a non-empty
`.string` are present (a failed `assert` raises `AssertionError`), then
returns `(title.lower(), record.string[0])` — the value kept is only the
first character of the cell text. -/
def extract_data (c : Cell) : Except PyErr (String × String) :=
  match c.title with
  | none => .error .assertionError
  | some t =>
    match c.text with
    | none => .error .assertionError
    | some s =>
      match s.toList with
      | [] => .error .assertionError
      | ch :: _ => .ok (pyLower t, String.mk [ch])

/-- `Player._extract_team`: reads `records[1]`; `find("a")` returning `None`
makes the subsequent `.get` raise `AttributeError`; an anchor without `href`
passes `None` to `re.search`, raising `TypeError`; only a `ValueError` from
`extract_team_from_href` is caught and replaced by the sentinel `"-"`. The
team name is `records[1].get("title").strip()` (an absent title raises
`AttributeError` from `None.strip()`). -/
def extract_team (records : List Cell) (season : String) : Except PyErr Team :=
  match records.get? 1 with
  | none => .error .indexError
  | some cell =>
    match cell.anchorHref with
    | none => .error .attributeError
    | some hrefAttr =>
      let teamNumber : Except PyErr String :=
        match hrefAttr with
        | none => .error .typeError
        | some h =>
          match extract_team_from_href h with
          | .ok n => .ok n
          | .error (.valueError _) => .ok "-"
          | .error e => .error e
      match teamNumber with
      | .error e => .error e
      | .ok num =>
        match cell.title with
        | none => .error .attributeError
        | some t => .ok ⟨pyStrip t, num, season, WEEK_NUMBER⟩

/-- `Player._extract_season`: applies the season regex to `records[0].string`. -/
def extract_season (records : List Cell) : Except PyErr String :=
  match records.get? 0 with
  | none => .error .indexError
  | some c => extract_season_label c.text

/-- The reserved keyword names of the `SeasonRecord(...)` call: a splatted
key equal to one of them raises `TypeError` (duplicate keyword argument). -/
def reservedKeys : List String := ["season", "player", "team"]

/-- `Player._create_record`: extracts the season from the first cell, the team
from the second, then one `(title.lower(), text[0])` pair per titled cell;
the pairs form a Python dict that is splatted into the `SeasonRecord`
constructor, and the pair `(record["season"], record)` is returned. -/
def create_record (p : Player) (row : Row) : Except PyErr (String × SeasonRecord) :=
  match extract_season row.cells with
  | .error e => .error e
  | .ok season =>
    match extract_team row.cells season with
    | .error e => .error e
    | .ok team =>
      match mapExcept extract_data (row.cells.filter has_title) with
      | .error e => .error e
      | .ok pairs =>
        if (pyDict pairs).any (fun kv => kv.1 ∈ reservedKeys) then .error .typeError
        else .ok (season, ⟨season, p, team, pyDict pairs⟩)

/-- The parsing part of `Player.statistics` on a fetched page: the code runs
`assert type(table) == bs4.element.Tag` before its `if not table` check, so a
page without a table raises `AssertionError`; with a table it builds
`dict(self._create_record(seasons[i]) for i in range(2, len(seasons)))`. -/
def statistics_of_page (p : Player) (page : Page) : Except PyErr (List (String × SeasonRecord)) :=
  match page.table with
  | none => .error .assertionError
  | some rows =>
    match mapExcept (create_record p) (rows.drop 2) with
    | .error e => .error e
    | .ok pairs => .ok (pyDict pairs)

/-! ## The `functools.cache` memoization model

`Player.statistics` and `Player.season_record` are decorated with `@cache`,
which keys its table on the arguments. `Player` overrides `__eq__`/`__hash__`
to compare by `_identifier` alone, so the cache key for a `Player` receiver is
its identifier. `Team` keeps default object identity, so the key for
`Team.players` is the object itself, modelled by an object-id token. The
network fetch performed on a cache miss is modelled as a supplied value, and a
counter records how many fetches happened; a second call is passed its own
(possibly different) would-be fetch result, which must not be consulted. -/

structure ScrapeState : Type where
  playerStatsCache : List (String × List (String × SeasonRecord))
  seasonRecCache : List ((String × String) × SeasonRecord)
  teamPlayersCache : List (Nat × List (String × Player))
  fetchCount : Nat
deriving DecidableEq, Repr

/-- `Player.statistics()` under `@cache`: hit returns the stored dict
unchanged; miss stores the fetched dict under the player's identifier and
counts one fetch. -/
def statistics_call (fetched : List (String × SeasonRecord)) (p : Player)
    (st : ScrapeState) : List (String × SeasonRecord) × ScrapeState :=
  match st.playerStatsCache.lookup p.identifier with
  | some r => (r, st)
  | none =>
    (fetched,
     { st with playerStatsCache := (p.identifier, fetched) :: st.playerStatsCache,
               fetchCount := st.fetchCount + 1 })

/-- `Team.players()` under `@cache`: keyed on the receiving object (`oid`). -/
def players_call (fetched : List (String × Player)) (oid : Nat)
    (st : ScrapeState) : List (String × Player) × ScrapeState :=
  match st.teamPlayersCache.lookup oid with
  | some r => (r, st)
  | none =>
    (fetched,
     { st with teamPlayersCache := (oid, fetched) :: st.teamPlayersCache,
               fetchCount := st.fetchCount + 1 })

/-- `Player.season_record(season)` under `@cache` (keyed on the identifier and
the season): on a miss it evaluates `self.statistics()[season]`; a missing
season raises `KeyError`, which `functools.cache` does not store. -/
def season_record_call (fetched : List (String × SeasonRecord)) (p : Player)
    (code : String) (st : ScrapeState) : Except PyErr SeasonRecord × ScrapeState :=
  match st.seasonRecCache.lookup (p.identifier, code) with
  | some r => (.ok r, st)
  | none =>
    match statistics_call fetched p st with
    | (stats, st1) =>
      match stats.lookup code with
      | some rec =>
        (.ok rec, { st1 with seasonRecCache := ((p.identifier, code), rec) :: st1.seasonRecCache })
      | none => (.error .keyError, st1)

/-! ## Characterizations of the href regex matchers -/

theorem takeWhile_eq_of_append (p : Char → Bool) :
    ∀ (xs : List Char) (y : Char) (ys : List Char),
      (∀ x ∈ xs, p x = true) → p y = false →
      (xs ++ y :: ys).takeWhile p = xs ∧ (xs ++ y :: ys).dropWhile p = y :: ys := by
  intro xs
  induction xs with
  | nil =>
    intro y ys _ hy
    constructor <;> simp [List.takeWhile_cons, List.dropWhile_cons, hy]
  | cons x xs ih =>
    intro y ys hall hy
    have hx : p x = true := hall x (List.mem_cons_self x xs)
    have h2 := ih y ys (fun z hz => hall z (List.mem_cons_of_mem x hz)) hy
    constructor <;> simp [List.takeWhile_cons, List.dropWhile_cons, hx, h2.1, h2.2]

theorem tailSlash_iff :
    ∀ l : List Char, tailSlash l = true ↔
      ∃ s post, l = s ++ '/' :: post ∧ ∀ c ∈ s, c.isWhitespace = false := by
  intro l
  induction l with
  | nil =>
    constructor
    · intro h; cases h
    · rintro ⟨s, post, heq, _⟩
      cases s <;> cases heq
  | cons c rest ih =>
    simp only [tailSlash, Bool.or_eq_true, Bool.and_eq_true, beq_iff_eq, Bool.not_eq_true']
    constructor
    · rintro (hc | ⟨hws, htail⟩)
      · exact ⟨[], rest, by rw [hc, List.nil_append], fun z hz => absurd hz (List.not_mem_nil z)⟩
      · rcases ih.mp htail with ⟨s, post, heq, hall⟩
        refine ⟨c :: s, post, by rw [List.cons_append, heq], fun z hz => ?_⟩
        rcases List.mem_cons.mp hz with h | h
        · exact h ▸ hws
        · exact hall z h
    · rintro ⟨s, post, heq, hall⟩
      cases s with
      | nil =>
        rw [List.nil_append] at heq
        injection heq with h1 _
        exact Or.inl h1
      | cons c0 s0 =>
        rw [List.cons_append] at heq
        injection heq with h1 h2
        refine Or.inr ⟨h1 ▸ hall c0 (List.mem_cons_self c0 s0), ?_⟩
        exact ih.mpr ⟨s0, post, h2, fun z hz => hall z (List.mem_cons_of_mem c0 hz)⟩

theorem slugSlash_iff :
    ∀ l : List Char, slugSlash l = true ↔
      ∃ s post, l = s ++ '/' :: post ∧ s ≠ [] ∧ ∀ c ∈ s, c.isWhitespace = false := by
  intro l
  cases l with
  | nil =>
    constructor
    · intro h; cases h
    · rintro ⟨s, post, heq, hne, _⟩
      cases s with
      | nil => exact absurd rfl hne
      | cons c0 s0 => cases heq
  | cons c rest =>
    simp only [slugSlash, Bool.and_eq_true, Bool.not_eq_true']
    constructor
    · rintro ⟨hws, htail⟩
      rcases (tailSlash_iff rest).mp htail with ⟨s, post, heq, hall⟩
      refine ⟨c :: s, post, by rw [List.cons_append, heq], List.cons_ne_nil c s, fun z hz => ?_⟩
      rcases List.mem_cons.mp hz with h | h
      · exact h ▸ hws
      · exact hall z h
    · rintro ⟨s, post, heq, hne, hall⟩
      cases s with
      | nil => exact absurd rfl hne
      | cons c0 s0 =>
        rw [List.cons_append] at heq
        injection heq with h1 h2
        exact ⟨h1 ▸ hall c0 (List.mem_cons_self c0 s0),
          (tailSlash_iff rest).mpr ⟨s0, post, h2, fun z hz => hall z (List.mem_cons_of_mem c0 hz)⟩⟩

theorem tailSlashDigit_iff :
    ∀ l : List Char, tailSlashDigit l = true ↔
      ∃ s d post, l = s ++ '/' :: d :: post ∧ (∀ c ∈ s, c.isWhitespace = false) ∧
        d.isDigit = true := by
  intro l
  induction l with
  | nil =>
    constructor
    · intro h; cases h
    · rintro ⟨s, d, post, heq, _, _⟩
      cases s <;> cases heq
  | cons c rest ih =>
    simp only [tailSlashDigit, Bool.or_eq_true, Bool.and_eq_true, beq_iff_eq, Bool.not_eq_true']
    constructor
    · rintro (⟨hc, hd⟩ | ⟨hws, htail⟩)
      · cases rest with
        | nil => cases hd
        | cons d rest0 =>
          exact ⟨[], d, rest0, by rw [hc, List.nil_append],
            fun z hz => absurd hz (List.not_mem_nil z), hd⟩
      · rcases ih.mp htail with ⟨s, d, post, heq, hall, hd⟩
        refine ⟨c :: s, d, post, by rw [List.cons_append, heq], fun z hz => ?_, hd⟩
        rcases List.mem_cons.mp hz with h | h
        · exact h ▸ hws
        · exact hall z h
    · rintro ⟨s, d, post, heq, hall, hd⟩
      cases s with
      | nil =>
        rw [List.nil_append] at heq
        injection heq with h1 h2
        subst h2
        exact Or.inl ⟨h1, hd⟩
      | cons c0 s0 =>
        rw [List.cons_append] at heq
        injection heq with h1 h2
        refine Or.inr ⟨h1 ▸ hall c0 (List.mem_cons_self c0 s0), ?_⟩
        exact ih.mpr ⟨s0, d, post, h2, fun z hz => hall z (List.mem_cons_of_mem c0 hz), hd⟩

theorem slugSlashDigit_iff :
    ∀ l : List Char, slugSlashDigit l = true ↔
      ∃ s d post, l = s ++ '/' :: d :: post ∧ s ≠ [] ∧ (∀ c ∈ s, c.isWhitespace = false) ∧
        d.isDigit = true := by
  intro l
  cases l with
  | nil =>
    constructor
    · intro h; cases h
    · rintro ⟨s, d, post, heq, hne, _, _⟩
      cases s with
      | nil => exact absurd rfl hne
      | cons c0 s0 => cases heq
  | cons c rest =>
    simp only [slugSlashDigit, Bool.and_eq_true, Bool.not_eq_true']
    constructor
    · rintro ⟨hws, htail⟩
      rcases (tailSlashDigit_iff rest).mp htail with ⟨s, d, post, heq, hall, hd⟩
      refine ⟨c :: s, d, post, by rw [List.cons_append, heq], List.cons_ne_nil c s,
        fun z hz => ?_, hd⟩
      rcases List.mem_cons.mp hz with h | h
      · exact h ▸ hws
      · exact hall z h
    · rintro ⟨s, d, post, heq, hne, hall, hd⟩
      cases s with
      | nil => exact absurd rfl hne
      | cons c0 s0 =>
        rw [List.cons_append] at heq
        injection heq with h1 h2
        exact ⟨h1 ▸ hall c0 (List.mem_cons_self c0 s0),
          (tailSlashDigit_iff rest).mpr
            ⟨s0, d, post, h2, fun z hz => hall z (List.mem_cons_of_mem c0 hz), hd⟩⟩

/-- One successful anchoring of `/team/(\d+)/\S+/` at the start of `l`,
capturing the digit group `ds`. -/
def teamDecompAt (l ds : List Char) : Prop :=
  ∃ slug post, l = "/team/".toList ++ (ds ++ '/' :: (slug ++ '/' :: post)) ∧
    ds ≠ [] ∧ (∀ c ∈ ds, c.isDigit = true) ∧ slug ≠ [] ∧ ∀ c ∈ slug, c.isWhitespace = false

/-- The team-link pattern matches somewhere inside `l`, capturing `ds`. -/
def teamDecomp (l ds : List Char) : Prop :=
  ∃ pre rest, l = pre ++ rest ∧ teamDecompAt rest ds

/-- `s` contains a match of `/team/(\d+)/\S+/`. -/
def teamMatches (s : String) : Prop := ∃ ds, teamDecomp s.toList ds

/-- One successful anchoring of `/player/(\d+)/\S+/(\d+)` at the start of `l`,
capturing the first digit group `ds` (the second group starts with `d`). -/
def playerDecompAt (l ds : List Char) : Prop :=
  ∃ slug d post, l = "/player/".toList ++ (ds ++ '/' :: (slug ++ '/' :: d :: post)) ∧
    ds ≠ [] ∧ (∀ c ∈ ds, c.isDigit = true) ∧ slug ≠ [] ∧
    (∀ c ∈ slug, c.isWhitespace = false) ∧ d.isDigit = true

/-- The player-link pattern matches somewhere inside `l`, capturing `ds`. -/
def playerDecomp (l ds : List Char) : Prop :=
  ∃ pre rest, l = pre ++ rest ∧ playerDecompAt rest ds

/-- `s` contains a match of `/player/(\d+)/\S+/(\d+)`. -/
def playerMatches (s : String) : Prop := ∃ ds, playerDecomp s.toList ds

theorem matchTeamAt_some_iff (l ds : List Char) :
    matchTeamAt l = some ds ↔ teamDecompAt l ds := by
  constructor
  · intro h
    unfold matchTeamAt at h
    split at h
    · split at h
      · rename_i hp hc
        rcases hc with ⟨hne, hhead, hslug⟩
        cases h
        rcases (slugSlash_iff _).mp hslug with ⟨slug, post, htl, hsne, hsall⟩
        have hafter : (l.drop 6).dropWhile Char.isDigit =
            '/' :: ((l.drop 6).dropWhile Char.isDigit).tail := by
          cases hd : (l.drop 6).dropWhile Char.isDigit with
          | nil => rw [hd] at hhead; cases hhead
          | cons a t =>
            rw [hd] at hhead
            injection hhead with ha
            rw [ha, List.tail_cons]
        refine ⟨slug, post, ?_, hne, fun c hc => List.mem_takeWhile_imp hc, hsne, hsall⟩
        calc l = l.take 6 ++ l.drop 6 := (List.take_append_drop 6 l).symm
          _ = "/team/".toList ++ l.drop 6 := by rw [hp]
          _ = "/team/".toList ++ ((l.drop 6).takeWhile Char.isDigit ++
                (l.drop 6).dropWhile Char.isDigit) := by
                rw [List.takeWhile_append_dropWhile]
          _ = "/team/".toList ++ ((l.drop 6).takeWhile Char.isDigit ++
                '/' :: (slug ++ '/' :: post)) := by rw [hafter, htl]
      · cases h
    · cases h
  · rintro ⟨slug, post, heq, hne, hdig, hsne, hsall⟩
    have hlen : ("/team/".toList).length = 6 := rfl
    have htake : l.take 6 = "/team/".toList := by
      rw [heq, ← hlen, List.take_left]
    have hdrop : l.drop 6 = ds ++ '/' :: (slug ++ '/' :: post) := by
      rw [heq, ← hlen, List.drop_left]
    have hsplit := takeWhile_eq_of_append Char.isDigit ds '/' (slug ++ '/' :: post)
      hdig (by decide)
    unfold matchTeamAt
    rw [if_pos htake]
    have hcond : (l.drop 6).takeWhile Char.isDigit ≠ [] ∧
        ((l.drop 6).dropWhile Char.isDigit).head? = some '/' ∧
        slugSlash ((l.drop 6).dropWhile Char.isDigit).tail := by
      rw [hdrop, hsplit.1, hsplit.2]
      exact ⟨hne, rfl, (slugSlash_iff _).mpr ⟨slug, post, rfl, hsne, hsall⟩⟩
    rw [if_pos hcond, hdrop, hsplit.1]

theorem matchPlayerAt_some_iff (l ds : List Char) :
    matchPlayerAt l = some ds ↔ playerDecompAt l ds := by
  constructor
  · intro h
    unfold matchPlayerAt at h
    split at h
    · split at h
      · rename_i hp hc
        rcases hc with ⟨hne, hhead, hslug⟩
        cases h
        rcases (slugSlashDigit_iff _).mp hslug with ⟨slug, d, post, htl, hsne, hsall, hd⟩
        have hafter : (l.drop 8).dropWhile Char.isDigit =
            '/' :: ((l.drop 8).dropWhile Char.isDigit).tail := by
          cases hdw : (l.drop 8).dropWhile Char.isDigit with
          | nil => rw [hdw] at hhead; cases hhead
          | cons a t =>
            rw [hdw] at hhead
            injection hhead with ha
            rw [ha, List.tail_cons]
        refine ⟨slug, d, post, ?_, hne, fun c hc => List.mem_takeWhile_imp hc, hsne, hsall, hd⟩
        calc l = l.take 8 ++ l.drop 8 := (List.take_append_drop 8 l).symm
          _ = "/player/".toList ++ l.drop 8 := by rw [hp]
          _ = "/player/".toList ++ ((l.drop 8).takeWhile Char.isDigit ++
                (l.drop 8).dropWhile Char.isDigit) := by
                rw [List.takeWhile_append_dropWhile]
          _ = "/player/".toList ++ ((l.drop 8).takeWhile Char.isDigit ++
                '/' :: (slug ++ '/' :: d :: post)) := by rw [hafter, htl]
      · cases h
    · cases h
  · rintro ⟨slug, d, post, heq, hne, hdig, hsne, hsall, hd⟩
    have hlen : ("/player/".toList).length = 8 := rfl
    have htake : l.take 8 = "/player/".toList := by
      rw [heq, ← hlen, List.take_left]
    have hdrop : l.drop 8 = ds ++ '/' :: (slug ++ '/' :: d :: post) := by
      rw [heq, ← hlen, List.drop_left]
    have hsplit := takeWhile_eq_of_append Char.isDigit ds '/' (slug ++ '/' :: d :: post)
      hdig (by decide)
    unfold matchPlayerAt
    rw [if_pos htake]
    have hcond : (l.drop 8).takeWhile Char.isDigit ≠ [] ∧
        ((l.drop 8).dropWhile Char.isDigit).head? = some '/' ∧
        slugSlashDigit ((l.drop 8).dropWhile Char.isDigit).tail := by
      rw [hdrop, hsplit.1, hsplit.2]
      exact ⟨hne, rfl, (slugSlashDigit_iff _).mpr ⟨slug, d, post, rfl, hsne, hsall, hd⟩⟩
    rw [if_pos hcond, hdrop, hsplit.1]

theorem searchTeam_some (ds : List Char) :
    ∀ l, searchTeam l = some ds → teamDecomp l ds := by
  intro l
  induction l with
  | nil => intro h; cases h
  | cons c rest ih =>
    intro h
    unfold searchTeam at h
    cases hm : matchTeamAt (c :: rest) with
    | some ds0 =>
      rw [hm] at h
      injection h with h0
      subst h0
      exact ⟨[], c :: rest, rfl, (matchTeamAt_some_iff _ _).mp hm⟩
    | none =>
      rw [hm] at h
      rcases ih h with ⟨pre, rest0, heq, hat⟩
      exact ⟨c :: pre, rest0, by rw [List.cons_append, heq], hat⟩

theorem searchTeam_of_decomp (ds : List Char) :
    ∀ (pre rest : List Char), teamDecompAt rest ds →
      ∃ ds9, searchTeam (pre ++ rest) = some ds9 := by
  intro pre
  induction pre with
  | nil =>
    intro rest hat
    have hm : matchTeamAt rest = some ds := (matchTeamAt_some_iff rest ds).mpr hat
    rcases hat with ⟨slug, post, heq, _⟩
    cases hr : rest with
    | nil => rw [hr] at heq; cases heq
    | cons c r0 =>
      rw [hr] at hm
      refine ⟨ds, ?_⟩
      rw [List.nil_append]
      unfold searchTeam
      rw [hm]
  | cons c pre0 ih =>
    intro rest hat
    rcases ih rest hat with ⟨ds9, h9⟩
    rw [List.cons_append]
    unfold searchTeam
    cases hm : matchTeamAt (c :: (pre0 ++ rest)) with
    | some d0 => exact ⟨d0, rfl⟩
    | none => exact ⟨ds9, h9⟩

theorem searchPlayer_some (ds : List Char) :
    ∀ l, searchPlayer l = some ds → playerDecomp l ds := by
  intro l
  induction l with
  | nil => intro h; cases h
  | cons c rest ih =>
    intro h
    unfold searchPlayer at h
    cases hm : matchPlayerAt (c :: rest) with
    | some ds0 =>
      rw [hm] at h
      injection h with h0
      subst h0
      exact ⟨[], c :: rest, rfl, (matchPlayerAt_some_iff _ _).mp hm⟩
    | none =>
      rw [hm] at h
      rcases ih h with ⟨pre, rest0, heq, hat⟩
      exact ⟨c :: pre, rest0, by rw [List.cons_append, heq], hat⟩

theorem searchPlayer_of_decomp (ds : List Char) :
    ∀ (pre rest : List Char), playerDecompAt rest ds →
      ∃ ds9, searchPlayer (pre ++ rest) = some ds9 := by
  intro pre
  induction pre with
  | nil =>
    intro rest hat
    have hm : matchPlayerAt rest = some ds := (matchPlayerAt_some_iff rest ds).mpr hat
    rcases hat with ⟨slug, d, post, heq, _⟩
    cases hr : rest with
    | nil => rw [hr] at heq; cases heq
    | cons c r0 =>
      rw [hr] at hm
      refine ⟨ds, ?_⟩
      rw [List.nil_append]
      unfold searchPlayer
      rw [hm]
  | cons c pre0 ih =>
    intro rest hat
    rcases ih rest hat with ⟨ds9, h9⟩
    rw [List.cons_append]
    unfold searchPlayer
    cases hm : matchPlayerAt (c :: (pre0 ++ rest)) with
    | some d0 => exact ⟨d0, rfl⟩
    | none => exact ⟨ds9, h9⟩

/-- A failed team extraction is precisely the `ValueError` the code raises. -/
theorem extract_team_from_href_not_ok (h : String)
    (hnone : (extract_team_from_href h).toOption = none) :
    extract_team_from_href h =
      .error (.valueError ("could not find the team identifier for tag: " ++ h)) := by
  unfold extract_team_from_href at hnone ⊢
  cases hs : searchTeam h.toList with
  | some ds => rw [hs] at hnone; cases hnone
  | none => rfl

/-- **C5.** For every hyperlink target string matching the team path pattern
`/team/<digits>/<slug>/` (respectively the player pattern
`/player/<digits>/<slug>/<digits>`), the extractor returns a captured digit
group of the pattern as text, unchanged; for every string not matching the
pattern, it fails with an extraction error. -/
theorem identifier_extractor_correct (s : String) :
    ((∃ t, extract_team_from_href s = .ok t) ↔ teamMatches s) ∧
    (∀ t, extract_team_from_href s = .ok t → teamDecomp s.toList t.toList) ∧
    (¬ teamMatches s → ∃ e, extract_team_from_href s = .error e) ∧
    ((∃ t, extract_player_from_href s = .ok t) ↔ playerMatches s) ∧
    (∀ t, extract_player_from_href s = .ok t → playerDecomp s.toList t.toList) ∧
    (¬ playerMatches s → ∃ e, extract_player_from_href s = .error e) := by
  have hteamSound : ∀ t, extract_team_from_href s = .ok t → teamDecomp s.toList t.toList := by
    intro t ht
    unfold extract_team_from_href at ht
    cases hs : searchTeam s.toList with
    | some ds =>
      rw [hs] at ht
      injection ht with ht0
      rw [← ht0]
      exact searchTeam_some ds s.toList hs
    | none => rw [hs] at ht; cases ht
  have hplayerSound : ∀ t, extract_player_from_href s = .ok t →
      playerDecomp s.toList t.toList := by
    intro t ht
    unfold extract_player_from_href at ht
    cases hs : searchPlayer s.toList with
    | some ds =>
      rw [hs] at ht
      injection ht with ht0
      rw [← ht0]
      exact searchPlayer_some ds s.toList hs
    | none => rw [hs] at ht; cases ht
  have hteamIff : (∃ t, extract_team_from_href s = .ok t) ↔ teamMatches s := by
    constructor
    · rintro ⟨t, ht⟩
      exact ⟨t.toList, hteamSound t ht⟩
    · rintro ⟨ds, pre, rest, heq, hat⟩
      rcases searchTeam_of_decomp ds pre rest hat with ⟨ds9, h9⟩
      refine ⟨String.mk ds9, ?_⟩
      unfold extract_team_from_href
      rw [heq, h9]
  have hplayerIff : (∃ t, extract_player_from_href s = .ok t) ↔ playerMatches s := by
    constructor
    · rintro ⟨t, ht⟩
      exact ⟨t.toList, hplayerSound t ht⟩
    · rintro ⟨ds, pre, rest, heq, hat⟩
      rcases searchPlayer_of_decomp ds pre rest hat with ⟨ds9, h9⟩
      refine ⟨String.mk ds9, ?_⟩
      unfold extract_player_from_href
      rw [heq, h9]
  refine ⟨hteamIff, hteamSound, ?_, hplayerIff, hplayerSound, ?_⟩
  · intro hnm
    cases ht : extract_team_from_href s with
    | ok t => exact absurd (hteamIff.mp ⟨t, ht⟩) hnm
    | error e => exact ⟨e, rfl⟩
  · intro hnm
    cases ht : extract_player_from_href s with
    | ok t => exact absurd (hplayerIff.mp ⟨t, ht⟩) hnm
    | error e => exact ⟨e, rfl⟩

/-- Witness for C5 at concrete links: both extractors succeed and the
captured groups are digit groups of genuine pattern decompositions. -/
theorem identifier_extractor_correct_witness :
    teamDecomp "/team/21/chelsea/".toList "21".toList ∧
    playerDecomp "/player/12345/john-doe/0".toList "12345".toList :=
  ⟨(identifier_extractor_correct "/team/21/chelsea/").2.1 "21" (by decide),
   (identifier_extractor_correct "/player/12345/john-doe/0").2.2.2.2.1 "12345" (by decide)⟩

/-! ## Season-label matcher helpers -/

theorem matchSeason_cons_digits (a b c d : Char) (rest : List Char)
    (hd : (a.isDigit && b.isDigit && c.isDigit && d.isDigit) = true) :
    matchSeason (a :: b :: c :: d :: rest) =
      match rest with
      | '/' :: e :: f :: g :: h :: _ =>
        if (e.isDigit && f.isDigit && g.isDigit && h.isDigit) then some [e, f, g, h]
        else some [a, b, c, d]
      | _ => some [a, b, c, d] := by
  simp [matchSeason, hd]

theorem matchSeason_none (l : List Char)
    (h : (l.take 4).length < 4 ∨ (l.take 4).all Char.isDigit = false) :
    matchSeason l = none := by
  cases l with
  | nil => rfl
  | cons a l1 =>
    cases l1 with
    | nil => rfl
    | cons b l2 =>
      cases l2 with
      | nil => rfl
      | cons c l3 =>
        cases l3 with
        | nil => rfl
        | cons d rest =>
          rcases h with h | h
          · simp [List.take] at h
          · simp only [List.take, List.all_cons, List.all_nil, Bool.and_true] at h
            have h4 : (a.isDigit && b.isDigit && c.isDigit && d.isDigit) = false := by
              simp only [Bool.and_assoc]
              exact h
            simp [matchSeason, h4]

/-- **C3.** The retry wrapper: a success returns the operation's result at
once; a non-429 HTTP error propagates immediately without a retry; a 429
sleeps for the `Retry-After` seconds (15 when the header is absent) and
retries with no upper bound; in particular a single 429 carrying
`Retry-After: 2` causes exactly one 2-second wait followed by one retry. -/
theorem retry_wrapper_correct :
    (∀ (α : Type) (v : α) (rest : List (FetchOutcome α)),
      retry_from_header (.success v :: rest) = ([], .returns v)) ∧
    (∀ (α : Type) (code : Nat) (ra : Option ℚ) (rest : List (FetchOutcome α)),
      code ≠ 429 →
      retry_from_header (.httpError code ra :: rest) = ([], .raisesHTTP code ra)) ∧
    (∀ (α : Type) (rest : List (FetchOutcome α)),
      retry_from_header (.otherError :: rest) = ([], .raisesOther)) ∧
    (∀ (α : Type) (ra : Option ℚ) (rest : List (FetchOutcome α)),
      retry_from_header (.httpError 429 ra :: rest) =
        ((ra.getD DEFAULT_RETRY) :: (retry_from_header rest).1, (retry_from_header rest).2)) ∧
    (∀ (α : Type) (v : α),
      retry_from_header [.httpError 429 (some 2), .success v] = ([2], .returns v)) := by
  refine ⟨fun α v rest => rfl, fun α code ra rest hc => ?_, fun α rest => rfl,
    fun α ra rest => ?_, fun α v => rfl⟩
  · unfold retry_from_header
    rw [if_pos hc]
  · rw [retry_from_header]
    rw [if_neg (by simp)]

/-- Witness for C3: a 404 is not retried, and the 429 scenario holds. -/
theorem retry_wrapper_correct_witness :
    (404 : Nat) ≠ 429 ∧
    retry_from_header (.httpError 404 none :: ([] : List (FetchOutcome Nat))) =
      ([], .raisesHTTP 404 none) :=
  ⟨by decide, retry_wrapper_correct.2.1 Nat 404 none [] (by decide)⟩

/-- C4 counterexample: the label `"20215"` (five characters, so of neither
shape `YYYY` nor `YYYY/YYYY`) does not fail; the unanchored regex accepts its
four-digit prefix and the normalizer returns `"21"`. -/
theorem season_normalizer_counterexample :
    extract_season_label (some "20215") = .ok "21" ∧ "20215".length = 5 :=
  ⟨by decide, by decide⟩

/-- **C4 (amended).** For every label beginning with `YYYY/YYYY` the
normalizer returns the last two characters of the second year; for every
other label beginning with four digits it returns the third and fourth
characters; a label not beginning with four digits fails with the
season-detection error. (The regex is unanchored at the end, so trailing
text is ignored; a label such as `2021/22` falls back to the first year.) -/
theorem season_normalizer_amended :
    (∀ (s : String) (a b c d e f g h : Char) (rest : List Char),
      s.toList = a :: b :: c :: d :: '/' :: e :: f :: g :: h :: rest →
      (a.isDigit && b.isDigit && c.isDigit && d.isDigit) = true →
      (e.isDigit && f.isDigit && g.isDigit && h.isDigit) = true →
      extract_season_label (some s) = .ok (String.mk [g, h])) ∧
    (∀ (s : String) (a b c d : Char) (rest : List Char),
      s.toList = a :: b :: c :: d :: rest →
      (a.isDigit && b.isDigit && c.isDigit && d.isDigit) = true →
      (∀ (e f g h : Char) (tl : List Char), rest = '/' :: e :: f :: g :: h :: tl →
        (e.isDigit && f.isDigit && g.isDigit && h.isDigit) = false) →
      extract_season_label (some s) = .ok (String.mk [c, d])) ∧
    (∀ s : String,
      (s.toList.take 4).length < 4 ∨ (s.toList.take 4).all Char.isDigit = false →
      extract_season_label (some s) = .error (.valueError "Season Number not detected")) := by
  refine ⟨?_, ?_, ?_⟩
  · intro s a b c d e f g h rest hlist hd1 hd2
    have hms : matchSeason s.toList = some [e, f, g, h] := by
      rw [hlist, matchSeason_cons_digits a b c d _ hd1]
      simp [hd2]
    have hred : extract_season_label (some s) =
        match matchSeason s.toList with
        | some grp => .ok (String.mk (grp.drop 2))
        | none => .error (.valueError "Season Number not detected") := rfl
    rw [hred, hms]
    rfl
  · intro s a b c d rest hlist hd1 hrest
    have hms : matchSeason s.toList = some [a, b, c, d] := by
      rw [hlist, matchSeason_cons_digits a b c d rest hd1]
      split
      · rename_i e f g h tl
        rw [if_neg (by simp [hrest e f g h tl rfl])]
      · rfl
    have hred : extract_season_label (some s) =
        match matchSeason s.toList with
        | some grp => .ok (String.mk (grp.drop 2))
        | none => .error (.valueError "Season Number not detected") := rfl
    rw [hred, hms]
    rfl
  · intro s hs
    have hred : extract_season_label (some s) =
        match matchSeason s.toList with
        | some grp => .ok (String.mk (grp.drop 2))
        | none => .error (.valueError "Season Number not detected") := rfl
    rw [hred, matchSeason_none s.toList hs]

/-- Witness for C4 at concrete labels of all three kinds. -/
theorem season_normalizer_amended_witness :
    extract_season_label (some "2020/2021") = .ok (String.mk ['2', '1']) ∧
    extract_season_label (some "2019") = .ok (String.mk ['1', '9']) ∧
    extract_season_label (some "abcd") = .error (.valueError "Season Number not detected") :=
  ⟨season_normalizer_amended.1 "2020/2021" '2' '0' '2' '0' '2' '0' '2' '1' []
      (by decide) (by decide) (by decide),
   season_normalizer_amended.2.1 "2019" '2' '0' '1' '9' [] (by decide) (by decide)
      (fun e f g h tl hc => List.noConfusion hc),
   season_normalizer_amended.2.2 "abcd" (Or.inr (by decide))⟩

/-- **C1 (code bug).** The spec (and the code's own comment) say a career
page with no table element yields an empty statistics mapping, but
`Player.statistics` runs `assert type(table) == bs4.element.Tag` before its
`if not table` check, so `soup.find("table")` returning `None` raises
`AssertionError` instead of returning the empty dict. -/
theorem statistics_no_table_raises :
    statistics_of_page ⟨"Joshua Feeney", "268550"⟩ ⟨none⟩ = .error .assertionError := rfl

/-- C8 counterexample: `FIELDS` does not have 49 entries. -/
theorem fields_count_counterexample : FIELDS.length = 50 ∧ FIELDS.length ≠ 49 :=
  ⟨by decide, by decide⟩

/-- **C8 (amended).** The fixed ordered field vocabulary consists of exactly
50 distinct names: `season`, `player`, `team`, plus 47 statistic names, in a
fixed order. -/
theorem fields_vocabulary :
    FIELDS.length = 50 ∧ FIELDS.take 3 = ["season", "player", "team"] ∧
    (FIELDS.drop 3).length = 47 ∧ FIELDS.Nodup :=
  ⟨by decide, by decide, by decide, by decide⟩

/-! ## Record-construction lemmas -/

theorem string_of_toList_nil {s : String} (h : s.toList = []) : s = "" := by
  cases s with
  | mk data =>
    cases h
    rfl

/-- The pure per-cell pair `Player._extract_data` yields on success. -/
def extract_data_pure (c : Cell) : String × String :=
  (pyLower (c.title.getD ""), String.mk ((c.text.getD "").toList.take 1))

theorem extract_data_ok_eq (c : Cell) (kv : String × String)
    (h : extract_data c = .ok kv) : kv = extract_data_pure c := by
  cases ht : c.title with
  | none => simp [extract_data, ht] at h
  | some t =>
    cases hs : c.text with
    | none => simp [extract_data, ht, hs] at h
    | some s =>
      cases hl : s.data with
      | nil => simp [extract_data, ht, hs, hl] at h
      | cons ch tl =>
        simp only [extract_data, ht, hs, String.toList, hl, Except.ok.injEq] at h
        rw [← h]
        simp [extract_data_pure, ht, hs, String.toList, hl]

theorem extract_data_ok_of_cell (c : Cell) (hht : has_title c = true)
    (hne : c.text ≠ some "") : ∃ y, extract_data c = .ok y := by
  unfold has_title at hht
  rcases Bool.and_eq_true_iff.mp hht with ⟨ht, hs⟩
  rcases Option.isSome_iff_exists.mp ht with ⟨t, htv⟩
  rcases Option.isSome_iff_exists.mp hs with ⟨s, hsv⟩
  have hne2 : s ≠ "" := fun hc => hne (by rw [hsv, hc])
  cases hl : s.data with
  | nil => exact absurd (string_of_toList_nil hl) hne2
  | cons ch tl =>
    refine ⟨(pyLower t, String.mk [ch]), ?_⟩
    simp [extract_data, htv, hsv, String.toList, hl]

/-- What a successful `Player._create_record` contains: the key is the
record's season, the extras are the dict of the titled cells' pure pairs,
and season and team come from the respective extractors. -/
theorem create_record_ok (p : Player) (row : Row) (k : String) (rec : SeasonRecord)
    (h : create_record p row = .ok (k, rec)) :
    k = rec.season ∧
    rec.extras = pyDict ((row.cells.filter has_title).map extract_data_pure) ∧
    extract_season row.cells = .ok rec.season ∧
    extract_team row.cells rec.season = .ok rec.team ∧ rec.player = p := by
  cases hs : extract_season row.cells with
  | error e => simp [create_record, hs] at h
  | ok season =>
    cases htm : extract_team row.cells season with
    | error e => simp [create_record, hs, htm] at h
    | ok team =>
      cases hp : mapExcept extract_data (row.cells.filter has_title) with
      | error e => simp [create_record, hs, htm, hp] at h
      | ok pairs =>
        simp only [create_record, hs, htm, hp] at h
        split at h
        · cases h
        · injection h with h0
          have hk : season = k := congrArg Prod.fst h0
          have hrec : (⟨season, p, team, pyDict pairs⟩ : SeasonRecord) = rec :=
            congrArg Prod.snd h0
          have hpairs : pairs = (row.cells.filter has_title).map extract_data_pure :=
            mapExcept_eq_map extract_data extract_data_pure extract_data_ok_eq _ pairs hp
          rw [← hrec]
          exact ⟨hk.symm, by rw [hpairs], rfl, htm, rfl⟩

/-- C2 counterexample: a cell titled `Goals` with displayed text `"12"` is
stored as `("goals", "1")`: the value is not the entire cell string. -/
theorem record_value_counterexample :
    create_record ⟨"P", "9"⟩
        ⟨[⟨none, some "2021", none⟩,
          ⟨some "Arsenal", none, some (some "/team/3/ars/")⟩,
          ⟨some "Goals", some "12", none⟩]⟩ =
      .ok ("21", ⟨"21", ⟨"P", "9"⟩, ⟨"Arsenal", "3", "21", "01"⟩, [("goals", "1")]⟩) ∧
    ("goals", "12") ∉ ([("goals", "1")] : List (String × String)) :=
  ⟨by decide, by decide⟩

/-- **C2 (amended).** For every titled career-page cell, the contributed
(key, value) pair is the cell's title attribute lower-cased paired with the
FIRST CHARACTER of the cell's displayed text (the code keeps only
`record.string[0]`); the record stores these pairs as a dict, later cells
overwriting earlier pairs with the same key. -/
theorem record_pairs_amended (p : Player) (row : Row) (k : String) (rec : SeasonRecord)
    (h : create_record p row = .ok (k, rec)) :
    rec.extras = pyDict ((row.cells.filter has_title).map extract_data_pure) :=
  (create_record_ok p row k rec h).2.1

/-- Witness for C2 at the concrete row with a `Goals: 12` cell. -/
theorem record_pairs_amended_witness :
    (⟨"21", ⟨"P", "9"⟩, ⟨"Arsenal", "3", "21", "01"⟩,
        [("goals", "1")]⟩ : SeasonRecord).extras =
      pyDict ((((⟨[⟨none, some "2021", none⟩,
          ⟨some "Arsenal", none, some (some "/team/3/ars/")⟩,
          ⟨some "Goals", some "12", none⟩]⟩ : Row)).cells.filter has_title).map
        extract_data_pure) :=
  record_pairs_amended ⟨"P", "9"⟩
    ⟨[⟨none, some "2021", none⟩,
      ⟨some "Arsenal", none, some (some "/team/3/ars/")⟩,
      ⟨some "Goals", some "12", none⟩]⟩ "21"
    ⟨"21", ⟨"P", "9"⟩, ⟨"Arsenal", "3", "21", "01"⟩, [("goals", "1")]⟩ (by decide)

/-- **C10.** In the mapping returned by `Player.statistics`, every key equals
the `season` field of the `SeasonRecord` it maps to. -/
theorem statistics_key_is_season (p : Player) (page : Page)
    (m : List (String × SeasonRecord)) (hm : statistics_of_page p page = .ok m) :
    ∀ kr ∈ m, kr.2.season = kr.1 := by
  cases ht : page.table with
  | none => simp [statistics_of_page, ht] at hm
  | some rows =>
    cases hp : mapExcept (create_record p) (rows.drop 2) with
    | error e => simp [statistics_of_page, ht, hp] at hm
    | ok pairs =>
      simp only [statistics_of_page, ht, hp, Except.ok.injEq] at hm
      rw [← hm]
      refine pyDict_forall (fun kr => kr.2.season = kr.1) pairs ?_
      intro kr hkr
      rcases mapExcept_mem (create_record p) (rows.drop 2) pairs hp kr hkr with ⟨row, _, hrow⟩
      exact ((create_record_ok p row kr.1 kr.2 hrow).1).symm

/-- Witness for C10 on a one-row career page. -/
theorem statistics_key_is_season_witness :
    (("21", ⟨"21", ⟨"P", "9"⟩, ⟨"Arsenal", "3", "21", "01"⟩,
        [("goals", "1")]⟩) : String × SeasonRecord).2.season =
      (("21", ⟨"21", ⟨"P", "9"⟩, ⟨"Arsenal", "3", "21", "01"⟩,
        [("goals", "1")]⟩) : String × SeasonRecord).1 :=
  statistics_key_is_season ⟨"P", "9"⟩
    ⟨some [⟨[]⟩, ⟨[]⟩,
      ⟨[⟨none, some "2021", none⟩,
        ⟨some "Arsenal", none, some (some "/team/3/ars/")⟩,
        ⟨some "Goals", some "12", none⟩]⟩]⟩
    [("21", ⟨"21", ⟨"P", "9"⟩, ⟨"Arsenal", "3", "21", "01"⟩, [("goals", "1")]⟩)]
    (by decide) _ (by decide)

/-- **C6.** For every career-page row whose team cell carries a title and a
link whose href cannot be resolved to a team identifier, extraction does not
fail: the Team is constructed with the sentinel identifier `"-"` and the
row's record is still produced (the row being otherwise well-formed). -/
theorem team_sentinel_fallback (p : Player) (row : Row) (c0 c1 : Cell)
    (rest : List Cell) (href t s : String)
    (hcells : row.cells = c0 :: c1 :: rest)
    (hseasonText : c0.text = some s)
    (hseasonOk : (matchSeason s.toList).isSome = true)
    (hanchor : c1.anchorHref = some (some href))
    (hnoid : (extract_team_from_href href).toOption = none)
    (htitle : c1.title = some t)
    (hcellsOk : ∀ c ∈ row.cells, has_title c = true →
      pyLower (c.title.getD "") ∉ reservedKeys ∧ c.text ≠ some "") :
    ∃ k rec, create_record p row = .ok (k, rec) ∧ rec.team.identifier = "-" := by
  rcases Option.isSome_iff_exists.mp hseasonOk with ⟨grp, hgrp⟩
  have hseason : extract_season row.cells = .ok (String.mk (grp.drop 2)) := by
    rw [hcells]
    show extract_season_label c0.text = _
    rw [hseasonText]
    show (match matchSeason s.toList with
      | some g => (Except.ok (String.mk (g.drop 2)) : Except PyErr String)
      | none => Except.error (.valueError "Season Number not detected")) = _
    rw [hgrp]
  have herr := extract_team_from_href_not_ok href hnoid
  have hteam : extract_team row.cells (String.mk (grp.drop 2)) =
      .ok ⟨pyStrip t, "-", String.mk (grp.drop 2), WEEK_NUMBER⟩ := by
    rw [hcells]
    simp only [extract_team, List.get?, hanchor, herr, htitle]
  have hextras : ∃ pairs, mapExcept extract_data (row.cells.filter has_title) = .ok pairs := by
    refine mapExcept_ok_of_all extract_data _ ?_
    intro c hc
    rcases List.mem_filter.mp hc with ⟨hmem, hht⟩
    exact extract_data_ok_of_cell c hht (hcellsOk c hmem hht).2
  rcases hextras with ⟨pairs, hpairs⟩
  have hkeys : (pyDict pairs).any (fun kv => kv.1 ∈ reservedKeys) = false := by
    cases hany : (pyDict pairs).any (fun kv => kv.1 ∈ reservedKeys) with
    | false => rfl
    | true =>
      rcases List.any_eq_true.mp hany with ⟨kv, hkvmem, hkv⟩
      have hall : ∀ x ∈ pairs, x.1 ∉ reservedKeys := by
        intro x hx
        rcases mapExcept_mem extract_data _ pairs hpairs x hx with ⟨c, hcmem, hcx⟩
        rcases List.mem_filter.mp hcmem with ⟨hmem, hht⟩
        rw [extract_data_ok_eq c x hcx]
        exact (hcellsOk c hmem hht).1
      exact absurd (of_decide_eq_true hkv)
        (pyDict_forall (fun x => x.1 ∉ reservedKeys) pairs hall kv hkvmem)
  refine ⟨String.mk (grp.drop 2),
    ⟨String.mk (grp.drop 2), p, ⟨pyStrip t, "-", String.mk (grp.drop 2), WEEK_NUMBER⟩,
      pyDict pairs⟩, ?_, rfl⟩
  simp [create_record, hseason, hteam, hpairs, hkeys]

/-- Witness for C6: a row whose team link is `no-match` still yields a
record, with the sentinel team identifier. -/
theorem team_sentinel_fallback_witness :
    ∃ k rec, create_record ⟨"P", "9"⟩
        ⟨[⟨none, some "2021", none⟩,
          ⟨some " FC Nowhere ", none, some (some "no-match")⟩]⟩ = .ok (k, rec) ∧
      rec.team.identifier = "-" :=
  team_sentinel_fallback ⟨"P", "9"⟩
    ⟨[⟨none, some "2021", none⟩, ⟨some " FC Nowhere ", none, some (some "no-match")⟩]⟩
    ⟨none, some "2021", none⟩ ⟨some " FC Nowhere ", none, some (some "no-match")⟩ []
    "no-match" " FC Nowhere " "2021" rfl rfl (by decide) rfl (by decide) rfl (by decide)

/-- **C7.** Memoized child collections are computed at most once per parent
instance: a second call to `Player.statistics` (cache keyed by the player's
identifier) or `Team.players` (cache keyed by the receiving object) returns
exactly the first call's result with the cache state unchanged — so no second
fetch happens, whatever the second would-be fetch result is. -/
theorem memoized_accessors (fS fS2 : List (String × SeasonRecord))
    (fP fP2 : List (String × Player)) (p : Player) (oid : Nat) (st su : ScrapeState) :
    statistics_call fS2 p (statistics_call fS p st).2 = statistics_call fS p st ∧
    players_call fP2 oid (players_call fP oid su).2 = players_call fP oid su := by
  constructor
  · cases hl : st.playerStatsCache.lookup p.identifier with
    | some r => simp [statistics_call, hl]
    | none => simp [statistics_call, hl, List.lookup]
  · cases hl : su.teamPlayersCache.lookup oid with
    | some r => simp [players_call, hl]
    | none => simp [players_call, hl, List.lookup]

/-- **C9.** Player equality and hashing are by identifier alone and the
memoization cache is keyed on the instance, so for two distinct Player
instances with the same identifier (even different names), `statistics` and
`season_record` on the second after the first return the very result cached
for the first, with no additional fetch: the cache is shared across equal
Player instances. -/
theorem cache_shared_by_identifier (n1 n2 id code : String)
    (fS fS2 : List (String × SeasonRecord)) (st st2 : ScrapeState) :
    statistics_call fS2 ⟨n2, id⟩ (statistics_call fS ⟨n1, id⟩ st).2 =
      statistics_call fS ⟨n1, id⟩ st ∧
    season_record_call fS2 ⟨n2, id⟩ code (season_record_call fS ⟨n1, id⟩ code st2).2 =
      season_record_call fS ⟨n1, id⟩ code st2 := by
  constructor
  · cases hl : st.playerStatsCache.lookup id with
    | some r => simp [statistics_call, hl]
    | none => simp [statistics_call, hl, List.lookup]
  · cases hl : st2.seasonRecCache.lookup (id, code) with
    | some r => simp [season_record_call, hl]
    | none =>
      cases hl2 : st2.playerStatsCache.lookup id with
      | some r0 =>
        cases hl3 : r0.lookup code with
        | some rec =>
          simp [season_record_call, statistics_call, hl, hl2, hl3, List.lookup]
        | none =>
          simp [season_record_call, statistics_call, hl, hl2, hl3]
      | none =>
        cases hl3 : fS.lookup code with
        | some rec =>
          simp [season_record_call, statistics_call, hl, hl2, hl3, List.lookup]
        | none =>
          simp [season_record_call, statistics_call, hl, hl2, hl3, List.lookup]
